import Mathlib

/-!
Verification of the DXLog multiplier listener (src/listener.c).

The C program is embedded shallowly: byte strings become `List Nat`
(each element a byte value 0..255), the NUL-terminated strings seen by
the C string functions are the prefix of the raw buffer before the
first 0 byte, and the observable behaviour of one loop iteration is a
pure record (`StepResult`).  Floating-point tone generation is
embedded parametrically over an abstract double type (`FPOps`), since
only the structural identity of the two generation loops is claimed.
-/

/-- C `tolower` in the default locale, restricted to bytes:
uppercase ASCII letters are shifted to lowercase, all other byte
values are unchanged (as `strcasecmp`/`strncasecmp` apply it). -/
def toLowerByte (c : Nat) : Nat :=
  if 65 ≤ c ∧ c ≤ 90 then c + 32 else c

/-- The whitespace test used by the trimming loops in `xml_get_field`:
space, tab, carriage return, newline. -/
def isWs (c : Nat) : Bool :=
  c == 32 || c == 9 || c == 13 || c == 10

/-- The two trimming loops of `xml_get_field` (lines 114-122): first
drop leading whitespace, then drop trailing whitespace. -/
def trimBoth (l : List Nat) : List Nat :=
  ((l.dropWhile isWs).reverse.dropWhile isWs).reverse

/-- Bytes of an ASCII string literal, for writing the program's
constant strings readably. -/
def strBytes (s : String) : List Nat :=
  s.data.map (fun c => c.toNat)

/-- `strncasecmp(xml + i, pat, pat.length) == 0` for a NUL-free
pattern: the `pat.length` bytes of `xml` starting at `i` exist and
compare equal under `toLowerByte`.  (When fewer than `pat.length`
bytes remain, the `take` is shorter than `pat` and the comparison
fails, exactly as `strncasecmp` fails on the terminating NUL or as
the marker scan's bound `i + 13 <= len` excludes the position.) -/
def matchAt (xml : List Nat) (i : Nat) (pat : List Nat) : Bool :=
  decide (((xml.drop i).take pat.length).map toLowerByte = pat.map toLowerByte)

/-- Fuel-indexed linear scan: first position `s ≤ j < xml.length`
at which `pat` matches case-insensitively, examining at most `fuel`
positions.  Structural recursion on the fuel keeps the function
kernel-reducible. -/
def findIdxAux (xml pat : List Nat) : Nat → Nat → Option Nat
  | 0, _ => none
  | fuel + 1, s =>
      if s < xml.length then
        if matchAt xml s pat then some s else findIdxAux xml pat fuel (s + 1)
      else none

/-- The search loops of `xml_get_field` (lines 91-96 and 100-106) and
the marker scan of `process_datagram` (lines 253-259): first match
position at or after `s`, or `none`. -/
def findIdx (xml pat : List Nat) (s : Nat) : Option Nat :=
  findIdxAux xml pat (xml.length - s) s

/-- `snprintf(open_tag, 64, "<%s>", tag)` (line 83): the literal
`<tag>`, truncated by `snprintf` to 63 bytes plus the terminator. -/
def openTag (tag : List Nat) : List Nat :=
  (60 :: tag ++ [62]).take 63

/-- `snprintf(close_tag, 64, "</%s>", tag)` (line 84): the literal
`</tag>`, truncated by `snprintf` to 63 bytes plus the terminator. -/
def closeTag (tag : List Nat) : List Nat :=
  (60 :: 47 :: tag ++ [62]).take 63

/-- `xml_get_field` (lines 79-125).  `xml` is the NUL-terminated
document as the C string functions see it (a NUL-free byte list),
`tag` the tag name, `buflen` the destination capacity.  Returns
`none` when the function returns 0 (tag absent) and `some v` when it
returns 1 with `v` the bytes stored in the destination buffer before
its terminating NUL: the inner text clipped to `buflen - 1` bytes and
then trimmed. -/
def xml_get_field (xml tag : List Nat) (buflen : Nat) : Option (List Nat) :=
  let ot := openTag tag
  let ct := closeTag tag
  match findIdx xml ot 0 with
  | none => none
  | some i =>
      let start := i + ot.length
      match findIdx xml ct start with
      | none => none
      | some e =>
          let len0 := e - start
          let len1 := if buflen ≤ len0 then buflen - 1 else len0
          some (trimBoth ((xml.drop start).take len1))

/-- `strcasecmp(a, b) == 0`: whole-string case-insensitive equality. -/
def caseEq (a b : List Nat) : Bool :=
  decide (a.map toLowerByte = b.map toLowerByte)

/-- The interest marker `"<contactinfo>"` scanned for in
`process_datagram` (line 255). -/
def contactMarker : List Nat := strBytes "<contactinfo>"

/-- `"true"`, the value `newqso` is compared against (line 296). -/
def trueBytes : List Nat := strBytes "true"

/-- The marker scan of `process_datagram` (lines 253-259): it runs
over the raw received bytes, embedded NULs included, bounded only by
the received length. -/
def containsMarker (buf : List Nat) : Bool :=
  (findIdx buf contactMarker 0).isSome

/-- The per-datagram record built by `process_datagram`: the eight
extracted field buffers, whether the `*** MULT` marker was appended
to the log line, and whether `play_sound` was invoked. -/
structure Output where
  call : List Nat
  band : List Nat
  mode : List Nat
  mult1 : List Nat
  mult2 : List Nat
  mult3 : List Nat
  newqso : List Nat
  xqso : List Nat
  multMarker : Bool
  soundPlayed : Bool
  deriving DecidableEq, Repr

/-- `process_datagram` (lines 249-318) as a function from the raw
datagram bytes to its observable outcome: `none` when no log line is
printed (marker absent, or the per-datagram `malloc` failed), `some o`
when one log line is printed with the fields of `o`.  `allocOk` is
the outcome of the `malloc` at line 268.  The string functions
operate on the NUL-terminated copy, hence on
`buf.takeWhile (· ≠ 0)`. -/
def process_datagram (allocOk : Bool) (buf : List Nat) : Option Output :=
  if containsMarker buf then
    if allocOk then
      let xml := buf.takeWhile (fun c => c ≠ 0)
      let call := (xml_get_field xml (strBytes "call") 64).getD []
      let band := (xml_get_field xml (strBytes "band") 32).getD []
      let mode := (xml_get_field xml (strBytes "mode") 16).getD []
      let mult1 := (xml_get_field xml (strBytes "mult1") 64).getD []
      let mult2 := (xml_get_field xml (strBytes "mult2") 64).getD []
      let mult3 := (xml_get_field xml (strBytes "mult3") 64).getD []
      let newqso := (xml_get_field xml (strBytes "newqso") 16).getD []
      let xqso := (xml_get_field xml (strBytes "xqso") 16).getD []
      let has_mult := !mult1.isEmpty || !mult2.isEmpty || !mult3.isEmpty
      let is_new := caseEq newqso trueBytes
      some ⟨call, band, mode, mult1, mult2, mult3, newqso, xqso,
            has_mult && is_new, has_mult && is_new⟩
    else none
  else none

/-- What one iteration of the receive loop observes: either
`recvfrom` failed, or it delivered a datagram. -/
inductive RecvEvent where
  | err : RecvEvent
  | ok : List Nat → RecvEvent

/-- Observable outcome of one iteration of the listener loop:
whether the process exits, the log line printed (if any), and whether
a diagnostic was written to stderr (`perror`). -/
structure StepResult where
  exits : Bool
  output : Option Output
  errLogged : Bool
  deriving DecidableEq, Repr

/-- One iteration of the `for (;;)` loop in `main` (lines 367-374):
a failed `recvfrom` is reported with `perror` and the loop continues;
a received datagram is handed to `process_datagram`, whose only
stderr diagnostic is the `perror("malloc")` taken when the marker was
present but the allocation failed.  No path exits the process. -/
def listener_step : RecvEvent → Bool → StepResult
  | RecvEvent.err, _ => ⟨false, none, true⟩
  | RecvEvent.ok buf, allocOk =>
      ⟨false, process_datagram allocOk buf, containsMarker buf && !allocOk⟩

/-- Rendering of one field in the log line (lines 301-307): `-` when
the buffer is empty, the buffer content otherwise. -/
def renderField (f : List Nat) : List Nat :=
  if f.isEmpty then strBytes "-" else f

/-- The eight tag names, in the order they are extracted
(lines 283-290). -/
def tagBytes : Fin 8 → List Nat
  | ⟨0, _⟩ => strBytes "call"
  | ⟨1, _⟩ => strBytes "band"
  | ⟨2, _⟩ => strBytes "mode"
  | ⟨3, _⟩ => strBytes "mult1"
  | ⟨4, _⟩ => strBytes "mult2"
  | ⟨5, _⟩ => strBytes "mult3"
  | ⟨6, _⟩ => strBytes "newqso"
  | ⟨7, _⟩ => strBytes "xqso"

/-- The destination capacities of the eight field buffers
(lines 273-281). -/
def fieldCap : Fin 8 → Nat
  | ⟨0, _⟩ => 64
  | ⟨1, _⟩ => 32
  | ⟨2, _⟩ => 16
  | ⟨3, _⟩ => 64
  | ⟨4, _⟩ => 64
  | ⟨5, _⟩ => 64
  | ⟨6, _⟩ => 16
  | ⟨7, _⟩ => 16

/-- Accessor for the eight field buffers of an `Output`, in extraction
order. -/
def Output.fieldAt (o : Output) : Fin 8 → List Nat
  | ⟨0, _⟩ => o.call
  | ⟨1, _⟩ => o.band
  | ⟨2, _⟩ => o.mode
  | ⟨3, _⟩ => o.mult1
  | ⟨4, _⟩ => o.mult2
  | ⟨5, _⟩ => o.mult3
  | ⟨6, _⟩ => o.newqso
  | ⟨7, _⟩ => o.xqso

/-- Abstract model of the C `double` type and the operations the tone
loops perform on it.  Only the loop structure is at stake in the
equivalence claim, so the values of the operations are left
abstract. -/
structure FPOps (α : Type) where
  ofInt : Int → α
  fdiv : α → α → α
  fmul : α → α → α
  fsin : α → α
  one : α
  twoPi : α
  c32767 : α

/-- The body of both tone loops: the value stored in `samples[i]`.
Transcribes lines 154-164 (equally, lines 215-224): `t = i / RATE`;
`fade` is 1 except in the linear fade-in (`i < fadelen`) and fade-out
(`i > num_samples - fadelen`, computed in C `int` arithmetic, hence
the `Int` comparison); `s = VOLUME * fade * sin(2π·freq·t)`; the
stored value is the `(short)` cast of `s * 32767.0`. -/
def toneSample (α : Type) (ops : FPOps α) (toShort : α → Int)
    (freqHz : Nat) (volume : α) (rate : Nat)
    (numSamples fadelen : Nat) (i : Nat) : Int :=
  let t := ops.fdiv (ops.ofInt i) (ops.ofInt rate)
  let fade :=
    if (i : Int) < (fadelen : Int) then
      ops.fdiv (ops.ofInt i) (ops.ofInt fadelen)
    else if (numSamples : Int) - (fadelen : Int) < (i : Int) then
      ops.fdiv (ops.ofInt ((numSamples : Int) - (i : Int))) (ops.ofInt fadelen)
    else ops.one
  let s := ops.fmul (ops.fmul volume fade)
      (ops.fsin (ops.fmul (ops.fmul ops.twoPi (ops.ofInt freqHz)) t))
  toShort (ops.fmul s ops.c32767)

/-- The sample sequence generated by strategy 2 (`SOUND_MODE_BEEP`,
lines 149-165): `num_samples = (int)((SAMPLE_RATE * BEEP_DURATION) /
1000)`, `fadelen = SAMPLE_RATE / 50`, and the loop fills the buffer
with `toneSample`. -/
def beepSamples (α : Type) (ops : FPOps α) (toShort : α → Int)
    (freqHz durationMs : Nat) (volume : α) (rate : Nat) : List Int :=
  let numSamples := rate * durationMs / 1000
  let fadelen := rate / 50
  (List.range numSamples).map
    (toneSample α ops toShort freqHz volume rate numSamples fadelen)

/-- The sample sequence generated by strategy 3 (`SOUND_MODE_ALSA`,
lines 210-225): `num_samples = (SAMPLE_RATE * BEEP_DURATION) / 1000`,
`fadelen = SAMPLE_RATE / 50`, and the loop fills the buffer with
`toneSample`.  Transcribed separately from `beepSamples` because the
two loops are distinct code in the source. -/
def alsaSamples (α : Type) (ops : FPOps α) (toShort : α → Int)
    (freqHz durationMs : Nat) (volume : α) (rate : Nat) : List Int :=
  let numSamples := rate * durationMs / 1000
  let fadelen := rate / 50
  (List.range numSamples).map
    (toneSample α ops toShort freqHz volume rate numSamples fadelen)

/- ================================================================ -/
/-  Characterisations of the search loop                             -/
/- ================================================================ -/

theorem findIdxAux_eq_some_iff (xml pat : List Nat) :
    ∀ fuel s i, xml.length ≤ s + fuel →
      (findIdxAux xml pat fuel s = some i ↔
        s ≤ i ∧ i < xml.length ∧ matchAt xml i pat = true ∧
          ∀ j, s ≤ j → j < i → matchAt xml j pat = false) := by
  intro fuel
  induction fuel with
  | zero =>
      intro s i hle
      simp only [findIdxAux]
      constructor
      · intro h; cases h
      · rintro ⟨hsi, hilen, _, _⟩; omega
  | succ fuel ih =>
      intro s i hle
      simp only [findIdxAux]
      by_cases hs : s < xml.length
      · rw [if_pos hs]
        by_cases hm : matchAt xml s pat
        · rw [if_pos hm]
          constructor
          · intro h
            cases h
            exact ⟨le_refl s, hs, hm, fun j h1 h2 => absurd h1 (by omega)⟩
          · rintro ⟨hsi, hilen, hmi, hnone⟩
            rcases Nat.eq_or_lt_of_le hsi with heq | hlt
            · rw [heq]
            · exact absurd hm (by simp [hnone s (le_refl s) hlt])
        · rw [if_neg hm]
          rw [ih (s + 1) i (by omega)]
          constructor
          · rintro ⟨hsi, hilen, hmi, hnone⟩
            refine ⟨by omega, hilen, hmi, fun j h1 h2 => ?_⟩
            rcases Nat.eq_or_lt_of_le h1 with heq | hlt
            · rw [← heq]; exact Bool.eq_false_iff.mpr hm
            · exact hnone j hlt h2
          · rintro ⟨hsi, hilen, hmi, hnone⟩
            have hne : s ≠ i := by
              intro heq; rw [heq] at hm; exact hm hmi
            exact ⟨by omega, hilen, hmi, fun j h1 h2 => hnone j (by omega) h2⟩
      · rw [if_neg hs]
        constructor
        · intro h; cases h
        · rintro ⟨hsi, hilen, _, _⟩; omega

theorem findIdx_eq_some_iff (xml pat : List Nat) (s i : Nat) :
    findIdx xml pat s = some i ↔
      s ≤ i ∧ i < xml.length ∧ matchAt xml i pat = true ∧
        ∀ j, s ≤ j → j < i → matchAt xml j pat = false := by
  exact findIdxAux_eq_some_iff xml pat (xml.length - s) s i (by omega)

theorem findIdxAux_eq_none_iff (xml pat : List Nat) :
    ∀ fuel s, xml.length ≤ s + fuel →
      (findIdxAux xml pat fuel s = none ↔
        ∀ j, s ≤ j → j < xml.length → matchAt xml j pat = false) := by
  intro fuel
  induction fuel with
  | zero =>
      intro s hle
      simp only [findIdxAux]
      constructor
      · intro _ j h1 h2; omega
      · intro _; trivial
  | succ fuel ih =>
      intro s hle
      simp only [findIdxAux]
      by_cases hs : s < xml.length
      · rw [if_pos hs]
        by_cases hm : matchAt xml s pat
        · rw [if_pos hm]
          constructor
          · intro h; cases h
          · intro hall
            exact absurd hm (by simp [hall s (le_refl s) hs])
        · rw [if_neg hm]
          rw [ih (s + 1) (by omega)]
          constructor
          · intro hall j h1 h2
            rcases Nat.eq_or_lt_of_le h1 with heq | hlt
            · rw [← heq]; exact Bool.eq_false_iff.mpr hm
            · exact hall j hlt h2
          · intro hall j h1 h2; exact hall j (by omega) h2
      · rw [if_neg hs]
        constructor
        · intro _ j h1 h2; omega
        · intro _; trivial

theorem findIdx_eq_none_iff (xml pat : List Nat) (s : Nat) :
    findIdx xml pat s = none ↔
      ∀ j, s ≤ j → j < xml.length → matchAt xml j pat = false := by
  exact findIdxAux_eq_none_iff xml pat (xml.length - s) s (by omega)

/- ================================================================ -/
/-  Helper lemmas                                                    -/
/- ================================================================ -/

theorem matchAt_append_of_lower (l patD r pat : List Nat)
    (h : patD.map toLowerByte = pat.map toLowerByte) :
    matchAt (l ++ patD ++ r) l.length pat = true := by
  have hlen : patD.length = pat.length := by
    have := congrArg List.length h
    simpa using this
  unfold matchAt
  rw [List.append_assoc, List.drop_left, ← hlen, List.take_left]
  exact decide_eq_true h

theorem matchAt_append (l pat r : List Nat) :
    matchAt (l ++ pat ++ r) l.length pat = true :=
  matchAt_append_of_lower l pat r pat rfl

theorem openTag_length_pos (tag : List Nat) : 0 < (openTag tag).length := by
  simp only [openTag, List.length_take, List.length_cons, List.length_append,
    List.length_singleton]
  omega

theorem closeTag_length_pos (tag : List Nat) : 0 < (closeTag tag).length := by
  simp only [closeTag, List.length_take, List.length_cons, List.length_append,
    List.length_singleton]
  omega

theorem trimBoth_length_le (l : List Nat) : (trimBoth l).length ≤ l.length := by
  unfold trimBoth
  calc ((l.dropWhile isWs).reverse.dropWhile isWs).reverse.length
      = ((l.dropWhile isWs).reverse.dropWhile isWs).length := List.length_reverse _
    _ ≤ (l.dropWhile isWs).reverse.length := (List.dropWhile_sublist _).length_le
    _ = (l.dropWhile isWs).length := List.length_reverse _
    _ ≤ l.length := (List.dropWhile_sublist _).length_le

theorem takeWhile_ne_zero_append (pre post : List Nat) (h : ∀ x ∈ pre, x ≠ 0) :
    (pre ++ 0 :: post).takeWhile (fun c => c ≠ 0) = pre := by
  induction pre with
  | nil => simp
  | cons a l ih =>
      have ha : a ≠ 0 := h a (by simp)
      simp only [List.cons_append, List.takeWhile_cons]
      rw [if_pos (by exact decide_eq_true ha)]
      rw [ih (fun x hx => h x (by simp [hx]))]

/- ================================================================ -/
/-  Claims                                                           -/
/- ================================================================ -/

/-- C1: for every processed datagram (one containing the
case-insensitive marker `<contactinfo>`), the sound trigger fires if
and only if at least one of the extracted fields `mult1`, `mult2`,
`mult3` is a non-empty string and the extracted `newqso` field
compares case-insensitively equal to `"true"`; when it fires the
`*** MULT` marker is appended to the log line and `play_sound` is
invoked, and when it does not fire neither happens. -/
theorem c1_trigger_iff (buf : List Nat) (h : containsMarker buf = true) :
    ∃ o, process_datagram true buf = some o ∧
      (o.soundPlayed = true ↔
        ((o.mult1 ≠ [] ∨ o.mult2 ≠ [] ∨ o.mult3 ≠ []) ∧
          caseEq o.newqso trueBytes = true)) ∧
      o.multMarker = o.soundPlayed := by
  simp only [process_datagram, h, if_true]
  refine ⟨_, rfl, ?_, rfl⟩
  simp only [Bool.and_eq_true, Bool.or_eq_true, Bool.not_eq_true',
    List.isEmpty_eq_false]
  rw [or_assoc]

/-- Witness for C1 at the concrete datagram
`<contactinfo><mult1>NY</mult1><newqso>TRUE</newqso>`. -/
theorem c1_trigger_iff_witness :
    containsMarker
        (strBytes "<contactinfo><mult1>NY</mult1><newqso>TRUE</newqso>") = true ∧
      ∃ o, process_datagram true
          (strBytes "<contactinfo><mult1>NY</mult1><newqso>TRUE</newqso>") = some o ∧
        (o.soundPlayed = true ↔
          ((o.mult1 ≠ [] ∨ o.mult2 ≠ [] ∨ o.mult3 ≠ []) ∧
            caseEq o.newqso trueBytes = true)) ∧
        o.multMarker = o.soundPlayed :=
  ⟨by decide, c1_trigger_iff _ (by decide)⟩

/-- C2: for every datagram that does not contain the case-insensitive
substring `<contactinfo>` anywhere within its received length,
`process_datagram` produces no output of any kind: no log line, no
stderr diagnostic, no sound, and the loop is not exited. -/
theorem c2_no_marker_no_output (buf : List Nat)
    (h : ∀ i, i < buf.length → matchAt buf i contactMarker = false) :
    ∀ allocOk, process_datagram allocOk buf = none ∧
      listener_step (RecvEvent.ok buf) allocOk =
        ⟨false, none, false⟩ := by
  have hnone : findIdx buf contactMarker 0 = none :=
    (findIdx_eq_none_iff buf contactMarker 0).mpr (fun j _ hj => h j hj)
  have hm : containsMarker buf = false := by
    simp [containsMarker, hnone]
  intro allocOk
  refine ⟨?_, ?_⟩
  · simp [process_datagram, hm]
  · simp [listener_step, process_datagram, hm]

/-- Witness for C2 at the concrete datagram `hello world`. -/
theorem c2_no_marker_no_output_witness :
    (∀ i, i < (strBytes "hello world").length →
        matchAt (strBytes "hello world") i contactMarker = false) ∧
      ∀ allocOk, process_datagram allocOk (strBytes "hello world") = none ∧
        listener_step (RecvEvent.ok (strBytes "hello world")) allocOk =
          ⟨false, none, false⟩ :=
  ⟨by decide, c2_no_marker_no_output _ (by decide)⟩

/-- C3: for every document containing a well-formed `<tag>value</tag>`
pair — written `pre ++ otD ++ val ++ ctD ++ rest` where `otD` and
`ctD` equal the opening and closing tags up to ASCII case, the
opening tag does not match earlier than `pre.length`, and the closing
tag does not match inside the value — `xml_get_field` matches the
tags case-insensitively and returns success with exactly the inner
text, leading and trailing ASCII whitespace removed (the value is
assumed to fit the destination; truncation is claim C5). -/
theorem c3_wellformed_extraction
    (pre val rest tag otD ctD : List Nat) (buflen : Nat)
    (hot : otD.map toLowerByte = (openTag tag).map toLowerByte)
    (hct : ctD.map toLowerByte = (closeTag tag).map toLowerByte)
    (hfit : val.length < buflen)
    (hopen : ∀ j, j < pre.length →
        matchAt (pre ++ otD ++ val ++ ctD ++ rest) j (openTag tag) = false)
    (hclose : ∀ j, pre.length + otD.length ≤ j →
        j < pre.length + otD.length + val.length →
        matchAt (pre ++ otD ++ val ++ ctD ++ rest) j (closeTag tag) = false) :
    xml_get_field (pre ++ otD ++ val ++ ctD ++ rest) tag buflen =
      some (trimBoth val) := by
  set xml := pre ++ otD ++ val ++ ctD ++ rest with hxml
  have hotlen : otD.length = (openTag tag).length := by
    have := congrArg List.length hot
    simpa using this
  have hctlen : ctD.length = (closeTag tag).length := by
    have := congrArg List.length hct
    simpa using this
  have hlen : xml.length =
      pre.length + otD.length + val.length + ctD.length + rest.length := by
    simp only [hxml, List.length_append]
  have hmopen : matchAt xml pre.length (openTag tag) = true := by
    have h1 : xml = pre ++ otD ++ (val ++ ctD ++ rest) := by
      simp [hxml, List.append_assoc]
    rw [h1]
    exact matchAt_append_of_lower pre otD (val ++ ctD ++ rest) (openTag tag) hot
  have hmclose : matchAt xml (pre.length + otD.length + val.length)
      (closeTag tag) = true := by
    have h1 : xml = (pre ++ otD ++ val) ++ ctD ++ rest := by
      simp [hxml, List.append_assoc]
    have h2 := matchAt_append_of_lower (pre ++ otD ++ val) ctD rest
      (closeTag tag) hct
    rw [h1]
    simpa [List.length_append, Nat.add_assoc] using h2
  have hopos := openTag_length_pos tag
  have hcpos := closeTag_length_pos tag
  have h1 : findIdx xml (openTag tag) 0 = some pre.length := by
    rw [findIdx_eq_some_iff]
    exact ⟨Nat.zero_le _, by omega, hmopen, fun j _ hj => hopen j hj⟩
  have h2 : findIdx xml (closeTag tag) (pre.length + (openTag tag).length) =
      some (pre.length + otD.length + val.length) := by
    rw [findIdx_eq_some_iff]
    refine ⟨by omega, by omega, hmclose, fun j hj1 hj2 => ?_⟩
    exact hclose j (by omega) (by omega)
  have hdrop : xml.drop (pre.length + (openTag tag).length) =
      val ++ ctD ++ rest := by
    have h3 : xml = (pre ++ otD) ++ (val ++ ctD ++ rest) := by
      simp [hxml, List.append_assoc]
    rw [h3, show pre.length + (openTag tag).length = (pre ++ otD).length by
      simp [List.length_append, hotlen], List.drop_left]
  have htake : (val ++ ctD ++ rest).take val.length = val := by
    rw [List.append_assoc, List.take_left]
  simp only [xml_get_field, h1, h2]
  have hsub : pre.length + otD.length + val.length -
      (pre.length + (openTag tag).length) = val.length := by omega
  rw [hsub, if_neg (by omega), hdrop, htake]

/-- Witness for C3: `<Mult1> 10 </Mult1>` with tag `mult1` yields
`"10"` — the tag is matched despite the differing case and the inner
text is trimmed. -/
theorem c3_wellformed_extraction_witness :
    xml_get_field (strBytes "<Mult1> 10 </Mult1>") (strBytes "mult1") 64 =
      some (strBytes "10") := by
  have h := c3_wellformed_extraction [] (strBytes " 10 ") []
    (strBytes "mult1") (strBytes "<Mult1>") (strBytes "</Mult1>") 64
    (by decide) (by decide) (by decide) (by decide) (by decide)
  exact h.trans (by decide)

/-- C4: when the case-insensitive opening tag occurs in the document
(first match at `i`) but the case-insensitive closing tag does not
match anywhere from the position immediately after that match,
`xml_get_field` reports the field absent (returns 0, `none`) — exactly
as it does for any document in which the opening tag itself is
missing. -/
theorem c4_missing_close_absent (xml tag : List Nat) (buflen i : Nat)
    (hopen : findIdx xml (openTag tag) 0 = some i)
    (hclose : ∀ j, i + (openTag tag).length ≤ j → j < xml.length →
        matchAt xml j (closeTag tag) = false) :
    xml_get_field xml tag buflen = none ∧
      ∀ xml2, findIdx xml2 (openTag tag) 0 = none →
        xml_get_field xml2 tag buflen = none := by
  have h2 : findIdx xml (closeTag tag) (i + (openTag tag).length) = none :=
    (findIdx_eq_none_iff xml (closeTag tag) (i + (openTag tag).length)).mpr
      (fun j hj1 hj2 => hclose j hj1 hj2)
  constructor
  · simp only [xml_get_field, hopen, h2]
  · intro xml2 h
    simp only [xml_get_field, h]

/-- Witness for C4: in `<mult1>NY` the opening tag is found but no
closing tag follows, and extraction reports the field absent; the
second conjunct is instantiated on `NY` where even the opening tag is
missing. -/
theorem c4_missing_close_absent_witness :
    findIdx (strBytes "<mult1>NY") (openTag (strBytes "mult1")) 0 = some 0 ∧
      xml_get_field (strBytes "<mult1>NY") (strBytes "mult1") 64 = none ∧
      ∀ xml2, findIdx xml2 (openTag (strBytes "mult1")) 0 = none →
        xml_get_field xml2 (strBytes "mult1") 64 = none :=
  ⟨by decide, c4_missing_close_absent _ _ 64 0 (by decide) (by decide)⟩

/-- C5: for destination capacity `buflen ≥ 1`, whatever is stored in
the destination (including its terminating NUL) always fits within
`buflen` bytes — no out-of-bounds write — and when the inner value is
at least as long as the capacity the function still returns success,
silently storing the value clipped to `buflen - 1` bytes (then
trimmed, as the code trims after the copy). -/
theorem c5_truncation_bounded (xml tag : List Nat) (buflen : Nat)
    (hb : 1 ≤ buflen) :
    (∀ v, xml_get_field xml tag buflen = some v → v.length + 1 ≤ buflen) ∧
      (∀ i e, findIdx xml (openTag tag) 0 = some i →
        findIdx xml (closeTag tag) (i + (openTag tag).length) = some e →
        buflen ≤ e - (i + (openTag tag).length) →
        xml_get_field xml tag buflen =
          some (trimBoth
            ((xml.drop (i + (openTag tag).length)).take (buflen - 1)))) := by
  constructor
  · intro v hv
    rcases ho : findIdx xml (openTag tag) 0 with _ | i
    · simp only [xml_get_field, ho] at hv
      cases hv
    · rcases hc : findIdx xml (closeTag tag) (i + (openTag tag).length)
        with _ | e
      · simp only [xml_get_field, ho, hc] at hv
        cases hv
      · simp only [xml_get_field, ho, hc, Option.some.injEq] at hv
        have hlen : v.length ≤
            (if buflen ≤ e - (i + (openTag tag).length) then buflen - 1
              else e - (i + (openTag tag).length)) := by
          rw [← hv]
          calc (trimBoth _).length ≤ _ := trimBoth_length_le _
            _ ≤ _ := by
                rw [List.length_take]
                exact Nat.min_le_left _ _
        by_cases hcase : buflen ≤ e - (i + (openTag tag).length)
        · rw [if_pos hcase] at hlen; omega
        · rw [if_neg hcase] at hlen; omega
  · intro i e ho hc hge
    simp only [xml_get_field, ho, hc]
    rw [if_pos hge]

/-- Witness for C5: `<a>hello</a>` with capacity 3 still succeeds,
stores `he` (2 bytes plus terminator, within the 3-byte buffer), and
every successful result fits its buffer. -/
theorem c5_truncation_bounded_witness :
    (1 ≤ 3 ∧
      (∀ v, xml_get_field (strBytes "<a>hello</a>") (strBytes "a") 3 = some v →
        v.length + 1 ≤ 3)) ∧
      xml_get_field (strBytes "<a>hello</a>") (strBytes "a") 3 =
        some (strBytes "he") := by
  have h := c5_truncation_bounded (strBytes "<a>hello</a>") (strBytes "a") 3
    (by decide)
  refine ⟨⟨by decide, h.1⟩, ?_⟩
  have h2 := h.2 0 8 (by decide) (by decide) (by decide)
  exact h2.trans (by decide)

/-- C6: the tone-generation loops of strategy 2 (pipe to aplay) and
strategy 3 (direct ALSA) compute identical sample sequences: over any
interpretation of the double operations, the same frequency,
duration, volume and sample rate give bit-for-bit equal sample lists,
extensionally equal at every sample index.  Both are pure functions
of their inputs, so each is deterministic. -/
theorem c6_tone_loops_equal (α : Type) (ops : FPOps α) (toShort : α → Int)
    (freqHz durationMs : Nat) (volume : α) (rate : Nat) :
    beepSamples α ops toShort freqHz durationMs volume rate =
      alsaSamples α ops toShort freqHz durationMs volume rate ∧
      ∀ i : Nat,
        (beepSamples α ops toShort freqHz durationMs volume rate).get? i =
          (alsaSamples α ops toShort freqHz durationMs volume rate).get? i :=
  ⟨rfl, fun _ => rfl⟩

/-- C8: a failed receive is logged to stderr and the loop continues
with no log line and no exit; a marker-bearing datagram whose
per-datagram allocation fails is dropped — stderr diagnostic, no log
line, no exit, and the loop continues to the next datagram. -/
theorem c8_recoverable_errors (buf : List Nat)
    (hm : containsMarker buf = true) :
    (∀ allocOk, listener_step RecvEvent.err allocOk =
        ⟨false, none, true⟩) ∧
      listener_step (RecvEvent.ok buf) false = ⟨false, none, true⟩ := by
  refine ⟨fun _ => rfl, ?_⟩
  simp [listener_step, process_datagram, hm]

/-- Witness for C8 at the concrete datagram `<contactinfo>`. -/
theorem c8_recoverable_errors_witness :
    containsMarker (strBytes "<contactinfo>") = true ∧
      (∀ allocOk, listener_step RecvEvent.err allocOk =
          ⟨false, none, true⟩) ∧
        listener_step (RecvEvent.ok (strBytes "<contactinfo>")) false =
          ⟨false, none, true⟩ :=
  ⟨by decide, c8_recoverable_errors _ (by decide)⟩

/-- C9: for every processed datagram and every one of the eight named
fields whose extraction fails, the field buffer keeps its initialized
empty value and is rendered as `-` in the log line. -/
theorem c9_missing_field_dash (buf : List Nat) (k : Fin 8)
    (hm : containsMarker buf = true)
    (hf : xml_get_field (buf.takeWhile (fun c => c ≠ 0)) (tagBytes k)
        (fieldCap k) = none) :
    ∃ o, process_datagram true buf = some o ∧ o.fieldAt k = [] ∧
      renderField (o.fieldAt k) = strBytes "-" := by
  simp only [process_datagram, hm, if_true]
  refine ⟨_, rfl, ?_, ?_⟩
  · fin_cases k <;>
      simp only [tagBytes, fieldCap] at hf <;>
      simp only [Output.fieldAt] <;>
      rw [hf] <;> rfl
  · fin_cases k <;>
      simp only [tagBytes, fieldCap] at hf <;>
      simp only [Output.fieldAt] <;>
      rw [hf] <;> rfl

/-- Witness for C9: datagram `<contactinfo>` alone has no `call`
field, which is extracted empty and rendered `-`. -/
theorem c9_missing_field_dash_witness :
    (containsMarker (strBytes "<contactinfo>") = true ∧
      xml_get_field ((strBytes "<contactinfo>").takeWhile (fun c => c ≠ 0))
        (tagBytes ⟨0, by omega⟩) (fieldCap ⟨0, by omega⟩) = none) ∧
      ∃ o, process_datagram true (strBytes "<contactinfo>") = some o ∧
        o.fieldAt ⟨0, by omega⟩ = [] ∧
        renderField (o.fieldAt ⟨0, by omega⟩) = strBytes "-" :=
  ⟨⟨by decide, by decide⟩,
    c9_missing_field_dash _ ⟨0, by omega⟩ (by decide) (by decide)⟩

/-- C10: the marker check examines all received bytes, embedded NULs
included, while field extraction works on the NUL-terminated copy and
hence only on the bytes before the first NUL: a datagram whose marker
(and tags) all lie after an embedded NUL still produces a log line,
but with every field empty — each rendered as `-` — and no trigger. -/
theorem c10_nul_split (pre post : List Nat)
    (hz : ∀ x ∈ pre, x ≠ 0)
    (hm : containsMarker (pre ++ 0 :: post) = true)
    (ht : ∀ k : Fin 8, ∀ j, j < pre.length →
        matchAt pre j (openTag (tagBytes k)) = false) :
    process_datagram true (pre ++ 0 :: post) =
      some ⟨[], [], [], [], [], [], [], [], false, false⟩ := by
  have hxml : (pre ++ 0 :: post).takeWhile (fun c => c ≠ 0) = pre :=
    takeWhile_ne_zero_append pre post hz
  have hnone : ∀ k : Fin 8,
      xml_get_field pre (tagBytes k) (fieldCap k) = none := by
    intro k
    have h1 : findIdx pre (openTag (tagBytes k)) 0 = none :=
      (findIdx_eq_none_iff _ _ _).mpr (fun j _ hj => ht k j hj)
    simp only [xml_get_field, h1]
  have h0 := hnone ⟨0, by omega⟩
  have h1 := hnone ⟨1, by omega⟩
  have h2 := hnone ⟨2, by omega⟩
  have h3 := hnone ⟨3, by omega⟩
  have h4 := hnone ⟨4, by omega⟩
  have h5 := hnone ⟨5, by omega⟩
  have h6 := hnone ⟨6, by omega⟩
  have h7 := hnone ⟨7, by omega⟩
  simp only [tagBytes, fieldCap] at h0 h1 h2 h3 h4 h5 h6 h7
  simp only [process_datagram, hm, if_true, hxml,
    h0, h1, h2, h3, h4, h5, h6, h7]
  rfl

/-- Witness for C10: the datagram `JU` ++ NUL ++ `<contactinfo>` is
logged (the marker is found past the NUL) with every field empty. -/
theorem c10_nul_split_witness :
    ((∀ x ∈ strBytes "JU", x ≠ 0) ∧
      containsMarker (strBytes "JU" ++ 0 :: strBytes "<contactinfo>") = true ∧
      (∀ k : Fin 8, ∀ j, j < (strBytes "JU").length →
        matchAt (strBytes "JU") j (openTag (tagBytes k)) = false)) ∧
      process_datagram true (strBytes "JU" ++ 0 :: strBytes "<contactinfo>") =
        some ⟨[], [], [], [], [], [], [], [], false, false⟩ :=
  ⟨⟨by decide, by decide, by decide⟩,
    c10_nul_split _ _ (by decide) (by decide) (by decide)⟩
